import Mathlib

/-!
Verification of the FASTQ quality-control engine and its command-line glue
(`fastq_cli_click.py`).  The streaming core (record reader, quality decoder,
aggregator, finalizer) lives in the external `fastaq` module; its behaviour is
modelled from the design document (§3, §4).  The command-line handlers
(`main`, `handle_stats`, `handle_full_analysis`) are embedded directly from
`src/fastq_cli_click.py`, including the binary64 floating-point arithmetic of
`total_bp = count * avg_len`.
-/

namespace FastqQC

/-- Nucleotide buckets used by the per-position composition table (§4.3):
recognized bases A/C/G/T/N map to their own bucket, anything else to `other`. -/
inductive Base : Type
  | A | C | G | T | N | other
  deriving DecidableEq, Repr

/-- Modelled from the spec (§4.3): case-insensitive classification of a base
symbol into its bucket. -/
def classifyBase (c : Char) : Base :=
  let u := c.toUpper
  if u = 'A' then .A
  else if u = 'C' then .C
  else if u = 'G' then .G
  else if u = 'T' then .T
  else if u = 'N' then .N
  else .other

/-- A structurally valid parsed record (§3): identifier, base symbols, raw
quality characters of the same length. -/
structure Record : Type where
  id : List Char
  sequence : List Char
  quality : List Char
  deriving DecidableEq, Repr

/-- A record whose quality characters have been decoded to integer scores by
the Quality Decoder (§4.2). -/
structure DecodedRecord : Type where
  id : List Char
  sequence : List Char
  quality : List Nat
  deriving DecidableEq, Repr

/-- Modelled from the spec (§3): the mutable running aggregate.  The growable
position-indexed arrays are embedded as total functions from position to
counter (the spec allows an index-keyed mapping), together with `maxLen`, the
length of the position arrays / largest read length seen, which fixes the
extent of the sorted histogram at finalization. -/
@[ext] structure RunningAggregate : Type where
  count : Nat
  length_sum : Nat
  maxLen : Nat
  position_quality_sum : Nat → Nat
  position_quality_count : Nat → Nat
  position_base_counts : Nat → Base → Nat
  length_histogram : Nat → Nat

/-- Modelled from the spec (§3 lifecycle): the aggregate created empty at the
start of an analysis session. -/
def emptyAggregate : RunningAggregate where
  count := 0
  length_sum := 0
  maxLen := 0
  position_quality_sum := fun _ => 0
  position_quality_count := fun _ => 0
  position_base_counts := fun _ _ => 0
  length_histogram := fun _ => 0

/-- Modelled from the spec (§4.3): `update(record)` increments `count`, adds
`L` to `length_sum`, bumps `length_histogram[L]`, and for each position
`i < L` adds the decoded score to `position_quality_sum[i]`, increments
`position_quality_count[i]` and the base bucket of `position_base_counts[i]`. -/
def update (a : RunningAggregate) (r : DecodedRecord) : RunningAggregate :=
  let L := r.sequence.length
  { count := a.count + 1
    length_sum := a.length_sum + L
    maxLen := max a.maxLen L
    position_quality_sum := fun i =>
      if i < L then a.position_quality_sum i + r.quality.getD i 0
      else a.position_quality_sum i
    position_quality_count := fun i =>
      if i < L then a.position_quality_count i + 1
      else a.position_quality_count i
    position_base_counts := fun i b =>
      if i < L ∧ b = classifyBase (r.sequence.getD i ' ') then
        a.position_base_counts i b + 1
      else a.position_base_counts i b
    length_histogram := fun l =>
      if l = L then a.length_histogram l + 1 else a.length_histogram l }

/-- One full aggregation pass over a list of decoded records (§3 lifecycle:
create → update*). -/
def aggregateList (rs : List DecodedRecord) : RunningAggregate :=
  rs.foldl update emptyAggregate

/-- Modelled from the spec (§4.3 merge law): two aggregates over disjoint
record sets combine via elementwise addition of scalar counters, histograms
and position arrays up to the union of their lengths (missing tail entries
are zero, so pointwise addition of the total-function embedding is exact). -/
def merge (a b : RunningAggregate) : RunningAggregate where
  count := a.count + b.count
  length_sum := a.length_sum + b.length_sum
  maxLen := max a.maxLen b.maxLen
  position_quality_sum := fun i =>
    a.position_quality_sum i + b.position_quality_sum i
  position_quality_count := fun i =>
    a.position_quality_count i + b.position_quality_count i
  position_base_counts := fun i b' =>
    a.position_base_counts i b' + b.position_base_counts i b'
  length_histogram := fun l => a.length_histogram l + b.length_histogram l

/-- The immutable derived summary (§3, §4.4).  Per-position statistics are
sparse: `none` at positions with no coverage.  Ratios are exact rationals. -/
structure Metrics : Type where
  count : Nat
  average_length : Rat
  total_bp : Nat
  per_position_mean_quality : Nat → Option Rat
  per_position_base_fraction : Nat → Base → Option Rat
  length_histogram : List (Nat × Nat)

/-- Result of finalization (§4.4): either an explicit empty-result variant or
a `Metrics` value. -/
inductive ComputeResult : Type
  | empty
  | metrics (m : Metrics)

/-- Modelled from the spec (§4.4): the length histogram exposed as an
ordered sequence of `(length, count)` pairs, ascending by length, listing
exactly the lengths with a nonzero count (all of which are at most
`maxLen`). -/
def histList (a : RunningAggregate) : List (Nat × Nat) :=
  ((List.range (a.maxLen + 1)).filter
    (fun l => a.length_histogram l ≠ 0)).map
    (fun l => (l, a.length_histogram l))

/-- Modelled from the spec (§4.4): `compute(aggregate)`.  `count == 0` yields
the explicit empty variant; otherwise `average_length = length_sum / count`,
`total_bp = length_sum`, the per-position means are defined only where
`position_quality_count[i] > 0`, and the histogram is the ascending list of
`(length, count)` pairs with nonzero count. -/
def compute (a : RunningAggregate) : ComputeResult :=
  if a.count = 0 then .empty
  else .metrics
    { count := a.count
      average_length := (a.length_sum : Rat) / (a.count : Rat)
      total_bp := a.length_sum
      per_position_mean_quality := fun i =>
        if 0 < a.position_quality_count i then
          some ((a.position_quality_sum i : Rat) / (a.position_quality_count i : Rat))
        else none
      per_position_base_fraction := fun i b =>
        if 0 < a.position_quality_count i then
          some ((a.position_base_counts i b : Rat) / (a.position_quality_count i : Rat))
        else none
      length_histogram := histList a }

/-- Projection used to state concrete facts about a `ComputeResult`. -/
def resultCount : ComputeResult → Option Nat
  | .empty => none
  | .metrics m => some m.count

/-- Projection: average length of a non-empty result. -/
def resultAvgLen : ComputeResult → Option Rat
  | .empty => none
  | .metrics m => some m.average_length

/-- Projection: total base pairs of a non-empty result. -/
def resultTotalBp : ComputeResult → Option Nat
  | .empty => none
  | .metrics m => some m.total_bp

/-- Projection: sorted length histogram of a non-empty result. -/
def resultHist : ComputeResult → Option (List (Nat × Nat))
  | .empty => none
  | .metrics m => some m.length_histogram

/-- Projection: mean quality at one position of a non-empty result. -/
def resultMeanQ (r : ComputeResult) (i : Nat) : Option (Option Rat) :=
  match r with
  | .empty => none
  | .metrics m => some (m.per_position_mean_quality i)

/-! ## Record Reader and Quality Decoder -/

/-- Failures of a pass (§4.1, §7): a group not aligned to four lines at end
of stream, a malformed record carrying the offending 1-based line number, or
a quality character below the configured offset. -/
inductive ReadError : Type
  | truncated
  | format (line : Nat)
  | decode
  deriving DecidableEq, Repr

/-- Modelled from the spec (§4.1): the Record Reader.  Consumes the line
stream in fixed groups of four (identifier line starting with the sentinel
character, sequence line, separator line starting with the second sentinel,
quality line of identical length); `ln` is the 1-based number of the first
line of the current group.  A mismatched sequence/quality length is a
`FormatError` carrying the quality line's number; an empty stream yields zero
records. -/
def parseFrom (ln : Nat) : List (List Char) → Except ReadError (List Record)
  | [] => .ok []
  | idl :: seq :: sep :: qual :: rest =>
    if idl.head? ≠ some '@' then .error (.format ln)
    else if sep.head? ≠ some '+' then .error (.format (ln + 2))
    else if seq.length ≠ qual.length then .error (.format (ln + 3))
    else
      match parseFrom (ln + 4) rest with
      | .error e => .error e
      | .ok rs => .ok ({ id := idl, sequence := seq, quality := qual } :: rs)
  | _ => .error .truncated

/-- Modelled from the spec (§4.1): a pass starts at line 1. -/
def readRecords (lines : List (List Char)) : Except ReadError (List Record) :=
  parseFrom 1 lines

/-- Modelled from the spec (§4.2): the Quality Decoder maps a quality
character to `code_point(char) - offset`; a code point below the offset is a
`DecodeError`. -/
def decodeChar (offset : Nat) (c : Char) : Except ReadError Nat :=
  if c.toNat < offset then .error .decode else .ok (c.toNat - offset)

/-- Decodes all quality characters of one record (§4.2). -/
def decodeRecord (offset : Nat) (r : Record) : Except ReadError DecodedRecord :=
  match r.quality.mapM (decodeChar offset) with
  | .error e => .error e
  | .ok scores => .ok { id := r.id, sequence := r.sequence, quality := scores }

/-- The default Phred offset (§6: "typically 33"). -/
def defaultOffset : Nat := 33

/-- One complete pass (§2 control flow): read, decode, aggregate, finalize.
Any reader or decoder failure aborts the pass: no `Metrics` is produced. -/
def fullPass (offset : Nat) (lines : List (List Char)) :
    Except ReadError ComputeResult :=
  match readRecords lines with
  | .error e => .error e
  | .ok rs =>
    match rs.mapM (decodeRecord offset) with
    | .error e => .error e
    | .ok ds => .ok (compute (aggregateList ds))

/-! ## Binary64 arithmetic of the CLI glue

`handle_stats` (src lines 72–74) and `handle_full_analysis` (src lines
123–129) compute `total_bp = count * avg_len` in Python floats (IEEE 754
binary64, round to nearest, ties to even).  The rounding is embedded exactly
over the rationals for the normal range `[1, 2^1023)` — every value arising
in these computations (averages and totals of positive read lengths) lies
there, far from subnormals and overflow. -/

/-- Fuel-bounded floor of the base-2 logarithm of a natural number
(`log2Fuel fuel n = ⌊log₂ n⌋` whenever `0 < n < 2^fuel`). -/
def log2Fuel : Nat → Nat → Nat
  | 0, _ => 0
  | fuel + 1, n => if n ≤ 1 then 0 else log2Fuel fuel (n / 2) + 1

/-- Round the quotient `N / D` to the nearest integer, ties to even. -/
def rheNat (N D : Nat) : Nat :=
  let q := N / D
  let rem := N % D
  if 2 * rem < D then q
  else if D < 2 * rem then q + 1
  else if q % 2 = 0 then q else q + 1

/-- A positive binary64 value of magnitude at least 1: the rational
`m * 2^e / 2^52`, where after a correctly rounded operation
`2^52 ≤ m ≤ 2^53` and `e = ⌊log₂ value⌋`. -/
structure F64 : Type where
  m : Nat
  e : Nat
  deriving DecidableEq, Repr

/-- The exact rational value of a binary64 number. -/
def F64.toRat (x : F64) : Rat := (x.m : Rat) * 2 ^ x.e / 2 ^ 52

/-- Binary64 division `a / b` of naturals with `b ≤ a` (Python's float
division of nonnegative ints whose quotient is ≥ 1): the exact quotient
`a/b` lies in `[2^e, 2^(e+1))` for `e = ⌊log₂ (a / b)⌋`, and is rounded to
the nearest multiple of `2^(e-52)` — that is, `(a * 2^52) / (b * 2^e)`
rounded to the nearest integer, ties to even. -/
def fdiv (a b : Nat) : F64 :=
  let e := log2Fuel 1100 (a / b)
  { m := rheNat (a * 2 ^ 52) (b * 2 ^ e), e := e }

/-- Binary64 multiplication `c * x` of a natural `c ≥ 1` (exactly
representable) by a binary64 value `x ≥ 1`: the exact product is
`c * m * 2^e / 2^52`, whose binade exponent exceeds `e` by
`e₂ = ⌊log₂ (c * m / 2^52)⌋`; rounding to the nearest multiple of
`2^(e + e₂ - 52)` is rounding `c * m / 2^e₂` to the nearest integer, ties
to even. -/
def fmul (c : Nat) (x : F64) : F64 :=
  let p := c * x.m
  let e2 := log2Fuel 1100 (p / 2 ^ 52)
  { m := rheNat p (2 ^ e2), e := x.e + e2 }

/-- Modelled from the spec (§4.4) for the missing `fastaq` module:
`FastqReader.get_average_length` returns `length_sum / count` as a Python
float, i.e. the binary64 quotient. -/
def get_average_length (length_sum count : Nat) : F64 :=
  fdiv length_sum count

/-- Embeds src line 74 (`handle_stats`): `total_bp = count * avg_len`, the
binary64 product of the count and the float average — not `length_sum`. -/
def handle_stats_total_bp (length_sum count : Nat) : F64 :=
  fmul count (get_average_length length_sum count)

/-- Embeds src line 129 (`handle_full_analysis`): the printed total volume is
`count * avg_len`, the same binary64 product as in `handle_stats`. -/
def handle_full_analysis_total_bp (length_sum count : Nat) : F64 :=
  fmul count (get_average_length length_sum count)

/-- The spec's finalizer (§4.4) reports `total_bp = length_sum` verbatim. -/
def spec_total_bp (a : RunningAggregate) : Nat := a.length_sum

/-! ## The command-line surface (src `main` and handlers) -/

/-- The parsed subcommand (src lines 18–44): `args.command` with the
arguments of its subparser.  `none` models an invocation without a
subcommand. -/
inductive Command : Type
  | stats (fastq_file fmt : List Char)
  | quality (fastq_file outPfx : List Char)
  | content (fastq_file output : List Char)
  | fullAnalysis (fastq_file outPfx : List Char)
  deriving DecidableEq, Repr

/-- `args.fastq_file` of a subcommand. -/
def commandFile : Command → List Char
  | .stats f _ => f
  | .quality f _ => f
  | .content f _ => f
  | .fullAnalysis f _ => f

/-- The input source: a map from file name to its lines, `none` when the
file does not exist. -/
def FileSystem : Type := List Char → Option (List (List Char))

/-- The engine-side open of the input (`FastqReader(fastq_file)`): a missing
file is `InputNotFoundError`. -/
inductive EngineError : Type
  | inputNotFound
  | readFailure (e : ReadError)
  deriving DecidableEq, Repr

/-- Opens the input source; a missing file yields `InputNotFoundError`. -/
def openInput (fs : FileSystem) (f : List Char) :
    Except EngineError (List (List Char)) :=
  match fs f with
  | none => .error .inputNotFound
  | some ls => .ok ls

/-- One engine invocation over a file: open, then run the full pass.  The
engine never handles `InputNotFoundError` itself — it is surfaced unchanged
to the caller. -/
def engineRun (fs : FileSystem) (offset : Nat) (f : List Char) :
    Except EngineError ComputeResult :=
  match openInput fs f with
  | .error e => .error e
  | .ok lines =>
    match fullPass offset lines with
    | .error e => .error (.readFailure e)
    | .ok r => .ok r

/-- The observable outcome of one `main` invocation (src lines 44–65):
process exit code, whether the help text was printed, which input files were
opened, and the error message printed, if any. -/
structure CliResult : Type where
  exitCode : Nat
  printedHelp : Bool
  filesOpened : List (List Char)
  errMessage : Option (List Char)
  deriving DecidableEq, Repr

/-- Embeds src `main` lines 44–65: with no subcommand, print the help and
exit with status 1 before any file is touched (lines 46–48); otherwise
dispatch to the handler, mapping `FileNotFoundError` to the message of line
61 with exit status 1 (lines 60–62) and any other failure to exit status 1
(lines 63–65). -/
def pyMain (fs : FileSystem) (offset : Nat) : Option Command → CliResult
  | none =>
    { exitCode := 1, printedHelp := true, filesOpened := [], errMessage := none }
  | some c =>
    let f := commandFile c
    match engineRun fs offset f with
    | .error .inputNotFound =>
      { exitCode := 1
        printedHelp := false
        filesOpened := [f]
        errMessage :=
          some ("Error: File ".toList ++ f ++ " not found".toList) }
    | .error (.readFailure _) =>
      { exitCode := 1, printedHelp := false, filesOpened := [f]
        errMessage := some "Error processing file".toList }
    | .ok _ =>
      { exitCode := 0, printedHelp := false, filesOpened := [f]
        errMessage := none }

/-- The observable effects of `handle_full_analysis` (src lines 116–140)
that the plotting claims are about: the plot files produced by
`generate_all_plots`, the plot filenames printed (lines 136–138), and the
final status line (line 140). -/
structure FullAnalysisEffects : Type where
  plotsGenerated : List (List Char)
  printedPlotFilenames : List (List Char)
  statusLine : List Char
  deriving DecidableEq, Repr

/-- Embeds src `handle_full_analysis` lines 116–140.  `gen` stands for
`fastaq`'s `FastqReader.generate_all_plots`, a function of the analyzer (and
hence of the input file) only: the call on line 133 passes no arguments, in
particular not the output prefix.  The printed plot filenames are the fixed
strings of lines 136–138; only the status line of line 140 mentions the
prefix. -/
def handle_full_analysis (gen : List Char → List (List Char))
    (fastq_file outPfx : List Char) : FullAnalysisEffects :=
  { plotsGenerated := gen fastq_file
    printedPlotFilenames :=
      ["per_base_quality.png".toList,
       "per_base_content.png".toList,
       "sequence_length_distribution.png".toList]
    statusLine := "Analysis complete. File prefix: ".toList ++ outPfx }

/-! ## Concrete inputs used by the concrete theorems -/

/-- Seven decoded records whose read lengths sum to 29 (six of length 4 and
one of length 5): a concrete `stats` input on which the glue's float product
drifts. -/
def c1Records : List DecodedRecord :=
  [⟨"@a".toList, "ACGT".toList, [40, 40, 40, 40]⟩,
   ⟨"@b".toList, "ACGT".toList, [40, 40, 40, 40]⟩,
   ⟨"@c".toList, "ACGT".toList, [40, 40, 40, 40]⟩,
   ⟨"@d".toList, "ACGT".toList, [40, 40, 40, 40]⟩,
   ⟨"@e".toList, "ACGT".toList, [40, 40, 40, 40]⟩,
   ⟨"@f".toList, "ACGT".toList, [40, 40, 40, 40]⟩,
   ⟨"@g".toList, "ACGTA".toList, [40, 40, 40, 40, 40]⟩]

/-- The spec's §8 concrete scenario as an input stream: two records of
lengths 5 and 7, quality characters all `'I'` (code point 73, score 40 under
the default offset 33). -/
def c4Lines : List (List Char) :=
  ["@r1".toList, "AAAAA".toList, "+".toList, "IIIII".toList,
   "@r2".toList, "AAAAAAA".toList, "+".toList, "IIIIIII".toList]

/-- The two records of `c4Lines` after decoding under the default offset. -/
def c4Records : List DecodedRecord :=
  [⟨"@r1".toList, "AAAAA".toList, [40, 40, 40, 40, 40]⟩,
   ⟨"@r2".toList, "AAAAAAA".toList, [40, 40, 40, 40, 40, 40, 40]⟩]

/-- Pass invariant (§3): the histogram's support lies within `[0, maxLen]`,
and its buckets total `count`. -/
def HistInv (a : RunningAggregate) : Prop :=
  (∀ l, a.maxLen < l → a.length_histogram l = 0) ∧
  (∑ l in Finset.range (a.maxLen + 1), a.length_histogram l = a.count)

/-! ## Lemmas: the merge law -/

lemma merge_emptyAggregate_left (a : RunningAggregate) :
    merge emptyAggregate a = a := by
  unfold merge emptyAggregate
  ext <;> simp

lemma merge_emptyAggregate_right (a : RunningAggregate) :
    merge a emptyAggregate = a := by
  unfold merge emptyAggregate
  ext <;> simp

lemma merge_comm_law (a b : RunningAggregate) : merge a b = merge b a := by
  unfold merge
  ext <;> simp [Nat.add_comm, Nat.max_comm]

lemma merge_assoc_law (a b c : RunningAggregate) :
    merge (merge a b) c = merge a (merge b c) := by
  unfold merge
  ext <;> simp [Nat.add_assoc, Nat.max_assoc]

lemma update_merge (a b : RunningAggregate) (r : DecodedRecord) :
    update (merge a b) r = merge a (update b r) := by
  unfold update merge
  ext i b' <;> simp only <;> try split
  all_goals simp [Nat.add_assoc, Nat.max_assoc]

lemma foldl_update_merge (l : List DecodedRecord) (a b : RunningAggregate) :
    List.foldl update (merge a b) l = merge a (List.foldl update b l) := by
  induction l generalizing b with
  | nil => rfl
  | cons r l ih => simp only [List.foldl_cons, update_merge, ih]

lemma aggregateList_append (l₁ l₂ : List DecodedRecord) :
    aggregateList (l₁ ++ l₂) = merge (aggregateList l₁) (aggregateList l₂) := by
  unfold aggregateList
  rw [List.foldl_append]
  calc List.foldl update (List.foldl update emptyAggregate l₁) l₂
      = List.foldl update (merge (List.foldl update emptyAggregate l₁)
          emptyAggregate) l₂ := by rw [merge_emptyAggregate_right]
    _ = merge (List.foldl update emptyAggregate l₁)
          (List.foldl update emptyAggregate l₂) := foldl_update_merge ..

lemma foldl_merge_shift (l : List RunningAggregate) (x : RunningAggregate) :
    List.foldl merge x l = merge x (List.foldl merge emptyAggregate l) := by
  induction l generalizing x with
  | nil => rw [List.foldl_nil, List.foldl_nil, merge_emptyAggregate_right]
  | cons a l ih =>
    rw [List.foldl_cons, List.foldl_cons, ih, merge_emptyAggregate_left,
      ih a, merge_assoc_law]

/-! ## Lemmas: the length histogram accounts for every record -/

lemma histInv_empty : HistInv emptyAggregate := by
  constructor
  · intro l _; rfl
  · simp [emptyAggregate]

lemma histInv_update (a : RunningAggregate) (r : DecodedRecord)
    (h : HistInv a) : HistInv (update a r) := by
  obtain ⟨hsupp, hsum⟩ := h
  constructor
  · intro l hl
    simp only [update] at hl ⊢
    have h1 : a.maxLen < l := lt_of_le_of_lt (le_max_left ..) hl
    have h2 : r.sequence.length < l := lt_of_le_of_lt (le_max_right ..) hl
    rw [if_neg (by omega), hsupp l h1]
  · simp only [update]
    set L := r.sequence.length with hL
    calc ∑ l in Finset.range (max a.maxLen L + 1),
          (if l = L then a.length_histogram l + 1 else a.length_histogram l)
        = ∑ l in Finset.range (max a.maxLen L + 1),
            (a.length_histogram l + if l = L then 1 else 0) := by
          refine Finset.sum_congr rfl fun l _ => ?_
          split <;> simp
      _ = (∑ l in Finset.range (max a.maxLen L + 1), a.length_histogram l)
            + ∑ l in Finset.range (max a.maxLen L + 1),
                (if l = L then 1 else 0) := Finset.sum_add_distrib
      _ = a.count + 1 := by
          congr 1
          · rw [← hsum]
            refine (Finset.sum_subset
              (Finset.range_subset.mpr (by omega)) fun x hx hnx => ?_).symm
            refine hsupp x ?_
            simp only [Finset.mem_range] at hx hnx
            omega
          · rw [Finset.sum_ite_eq' (Finset.range (max a.maxLen L + 1)) L
              (fun _ => 1), if_pos]
            simp only [Finset.mem_range]
            omega

lemma histInv_foldl (l : List DecodedRecord) (a : RunningAggregate)
    (h : HistInv a) : HistInv (List.foldl update a l) := by
  induction l generalizing a with
  | nil => exact h
  | cons r l ih => exact ih _ (histInv_update a r h)

lemma histInv_aggregateList (rs : List DecodedRecord) :
    HistInv (aggregateList rs) :=
  histInv_foldl rs emptyAggregate histInv_empty

lemma count_foldl (l : List DecodedRecord) (a : RunningAggregate) :
    (List.foldl update a l).count = a.count + l.length := by
  induction l generalizing a with
  | nil => rfl
  | cons r l ih => rw [List.foldl_cons, ih, List.length_cons]; simp [update]; omega

lemma count_aggregateList (rs : List DecodedRecord) :
    (aggregateList rs).count = rs.length := by
  rw [aggregateList, count_foldl]
  simp [emptyAggregate]

lemma listRangeSum (g : Nat → Nat) (n : Nat) :
    ((List.range n).map g).sum = ∑ l in Finset.range n, g l := by
  induction n with
  | zero => rfl
  | succ n ih => rw [List.range_succ, Finset.sum_range_succ, ← ih]; simp

lemma sum_filter_ne_zero (g : Nat → Nat) (l : List Nat) :
    ((l.filter (fun x => g x ≠ 0)).map g).sum = (l.map g).sum := by
  induction l with
  | nil => rfl
  | cons x l ih =>
    rw [List.filter_cons]
    by_cases hx : g x = 0
    · rw [if_neg (by simp [hx]), List.map_cons, List.sum_cons, ih, hx,
        Nat.zero_add]
    · rw [if_pos (by simp [hx]), List.map_cons, List.map_cons, List.sum_cons,
        List.sum_cons, ih]

lemma histList_snd_sum (a : RunningAggregate) (h : HistInv a) :
    ((histList a).map Prod.snd).sum = a.count := by
  rw [histList, List.map_map]
  have : (Prod.snd ∘ fun l => (l, a.length_histogram l)) = a.length_histogram := rfl
  rw [this, sum_filter_ne_zero, listRangeSum, h.2]

lemma aggregateList_flatten (P : List (List DecodedRecord)) :
    aggregateList P.flatten =
      List.foldl merge emptyAggregate (P.map aggregateList) := by
  induction P with
  | nil => rfl
  | cons l P ih =>
    rw [List.flatten_cons, aggregateList_append, List.map_cons,
      List.foldl_cons, merge_emptyAggregate_left, foldl_merge_shift, ih]

/-! ## Lemmas: the Record Reader on composite streams -/

lemma parseFrom_append (suf : List (List Char)) (ln : Nat)
    (pre : List (List Char)) :
    ∀ rs, parseFrom ln pre = .ok rs →
      parseFrom ln (pre ++ suf) =
        match parseFrom (ln + pre.length) suf with
        | .ok rs' => .ok (rs ++ rs')
        | .error e => .error e := by
  induction ln, pre using parseFrom.induct with
  | case1 ln =>
    intro rs h
    rw [parseFrom] at h
    injection h with h
    subst h
    simp only [List.nil_append, List.length_nil, Nat.add_zero]
    cases parseFrom ln suf <;> simp
  | case2 ln idl seq sep qual rest hid =>
    intro rs h
    rw [parseFrom, if_pos hid] at h
    exact absurd h (by simp)
  | case3 ln idl seq sep qual rest hid hsep =>
    intro rs h
    rw [parseFrom, if_neg hid, if_pos hsep] at h
    exact absurd h (by simp)
  | case4 ln idl seq sep qual rest hid hsep hlen =>
    intro rs h
    rw [parseFrom, if_neg hid, if_neg hsep, if_pos hlen] at h
    exact absurd h (by simp)
  | case5 ln idl seq sep qual rest hid hsep hlen e herr ih =>
    intro rs h
    rw [parseFrom, if_neg hid, if_neg hsep, if_neg hlen, herr] at h
    exact absurd h (by simp)
  | case6 ln idl seq sep qual rest hid hsep hlen rs₀ hok ih =>
    intro rs h
    rw [parseFrom, if_neg hid, if_neg hsep, if_neg hlen, hok] at h
    injection h with h
    subst h
    rw [List.cons_append, List.cons_append, List.cons_append,
      List.cons_append, parseFrom, if_neg hid, if_neg hsep, if_neg hlen,
      ih rs₀ hok]
    have hlen4 : ln + 4 + rest.length =
        ln + (idl :: seq :: sep :: qual :: rest).length := by
      simp only [List.length_cons]
      omega
    rw [hlen4]
    cases parseFrom (ln + (idl :: seq :: sep :: qual :: rest).length) suf <;>
      simp
  | case7 t ln h1 h2 =>
    intro rs h
    exfalso
    rcases t with _ | ⟨a, _ | ⟨b, _ | ⟨c, _ | ⟨d, t'⟩⟩⟩⟩
    · exact h1 rfl
    · rw [show parseFrom ln [a] = .error .truncated from rfl] at h
      exact absurd h (by simp)
    · rw [show parseFrom ln [a, b] = .error .truncated from rfl] at h
      exact absurd h (by simp)
    · rw [show parseFrom ln [a, b, c] = .error .truncated from rfl] at h
      exact absurd h (by simp)
    · exact h2 a b c d t' rfl

lemma parseFrom_mismatch (ln : Nat) (idl seq sep qual : List Char)
    (rest : List (List Char)) (hid : idl.head? = some '@')
    (hsep : sep.head? = some '+') (hlen : seq.length ≠ qual.length) :
    parseFrom ln (idl :: seq :: sep :: qual :: rest) =
      .error (.format (ln + 3)) := by
  rw [parseFrom, if_neg (by simp [hid]), if_neg (by simp [hsep]),
    if_pos hlen]

/-! ## Claim theorems -/

/-- C1: the spec-side finalizer reports `total_bp = length_sum` verbatim
(29 on the seven-record input whose lengths sum to 29), but the CLI glue
(src lines 72–74 and 123–129) derives `total_bp = count * avg_len` in
binary64, which is not 29 there; on 670 records totalling 8230086682506902
base pairs the product is 8230086682506903 — wrong by a whole base pair even
after display rounding. -/
theorem total_bp_product_drifts :
    (aggregateList c1Records).count = 7 ∧
    (aggregateList c1Records).length_sum = 29 ∧
    spec_total_bp (aggregateList c1Records) = 29 ∧
    F64.toRat (handle_stats_total_bp 29 7) ≠ ((29 : Nat) : Rat) ∧
    F64.toRat (handle_full_analysis_total_bp 29 7) ≠ ((29 : Nat) : Rat) ∧
    F64.toRat (handle_stats_total_bp 8230086682506902 670) =
      ((8230086682506903 : Nat) : Rat) := by
  refine ⟨rfl, rfl, rfl, ?_, ?_, ?_⟩
  · rw [show handle_stats_total_bp 29 7 = ⟨8162774324609025, 4⟩ from by
      decide]
    norm_num [F64.toRat]
  · rw [show handle_full_analysis_total_bp 29 7 = ⟨8162774324609025, 4⟩ from
      by decide]
    norm_num [F64.toRat]
  · rw [show handle_stats_total_bp 8230086682506902 670 =
      ⟨8230086682506903, 52⟩ from by decide]
    norm_num [F64.toRat]

/-- C2: finalizing an aggregate with `count = 0` yields the explicit
empty-result variant, never a `Metrics` value (so no statistic is reported
as zero or NaN), and `compute` is a total function — it raises nothing. -/
theorem compute_count_zero_empty (a : RunningAggregate) (h : a.count = 0) :
    compute a = .empty ∧ ∀ m, compute a ≠ .metrics m := by
  have he : compute a = .empty := by rw [compute, if_pos h]
  exact ⟨he, fun m hm => by rw [he] at hm; exact ComputeResult.noConfusion hm⟩

/-- Witness for C2 at the freshly created empty aggregate. -/
theorem compute_count_zero_empty_witness :
    emptyAggregate.count = 0 ∧ compute emptyAggregate = .empty :=
  ⟨rfl, (compute_count_zero_empty emptyAggregate rfl).1⟩

/-- C3: the merge law is commutative and associative; aggregating the shards
of any partition of the input and merging (in fold order, which with
commutativity and associativity covers every merge order) equals aggregating
the whole input in one batch, and the finalized `Metrics` are identical. -/
theorem merge_shard_determinism :
    (∀ a b, merge a b = merge b a) ∧
    (∀ a b c, merge (merge a b) c = merge a (merge b c)) ∧
    (∀ l₁ l₂ : List DecodedRecord,
      aggregateList (l₁ ++ l₂) =
        merge (aggregateList l₁) (aggregateList l₂)) ∧
    (∀ P : List (List DecodedRecord),
      aggregateList P.flatten =
        List.foldl merge emptyAggregate (P.map aggregateList)) ∧
    (∀ P : List (List DecodedRecord),
      compute (aggregateList P.flatten) =
        compute (List.foldl merge emptyAggregate (P.map aggregateList))) :=
  ⟨merge_comm_law, merge_assoc_law, aggregateList_append,
   aggregateList_flatten,
   fun P => congrArg compute (aggregateList_flatten P)⟩

/-- C4: on the two-record input with lengths 5 and 7 and all quality
characters decoding to 40 under the default offset, the pass succeeds and
the `Metrics` has `count = 2`, `average_length = 6`, `total_bp = 12`,
`length_histogram = [(5,1),(7,1)]` and per-position mean quality 40 at
positions 0 through 6. -/
theorem concrete_scenario_metrics :
    fullPass defaultOffset c4Lines = .ok (compute (aggregateList c4Records)) ∧
    resultCount (compute (aggregateList c4Records)) = some 2 ∧
    resultAvgLen (compute (aggregateList c4Records)) = some 6 ∧
    resultTotalBp (compute (aggregateList c4Records)) = some 12 ∧
    resultHist (compute (aggregateList c4Records)) = some [(5, 1), (7, 1)] ∧
    resultMeanQ (compute (aggregateList c4Records)) 0 = some (some 40) ∧
    resultMeanQ (compute (aggregateList c4Records)) 1 = some (some 40) ∧
    resultMeanQ (compute (aggregateList c4Records)) 2 = some (some 40) ∧
    resultMeanQ (compute (aggregateList c4Records)) 3 = some (some 40) ∧
    resultMeanQ (compute (aggregateList c4Records)) 4 = some (some 40) ∧
    resultMeanQ (compute (aggregateList c4Records)) 5 = some (some 40) ∧
    resultMeanQ (compute (aggregateList c4Records)) 6 = some (some 40) := by
  refine ⟨rfl, rfl, ?_, rfl, rfl, ?_, ?_, ?_, ?_, ?_, ?_, ?_⟩
  · simp only [compute, show (aggregateList c4Records).count = 2 from rfl,
      show (aggregateList c4Records).length_sum = 12 from rfl]
    norm_num [resultAvgLen]
  all_goals {
    simp only [compute, show (aggregateList c4Records).count = 2 from rfl]
    norm_num [resultMeanQ,
      show (aggregateList c4Records).position_quality_sum 0 = 80 from rfl,
      show (aggregateList c4Records).position_quality_sum 1 = 80 from rfl,
      show (aggregateList c4Records).position_quality_sum 2 = 80 from rfl,
      show (aggregateList c4Records).position_quality_sum 3 = 80 from rfl,
      show (aggregateList c4Records).position_quality_sum 4 = 80 from rfl,
      show (aggregateList c4Records).position_quality_sum 5 = 40 from rfl,
      show (aggregateList c4Records).position_quality_sum 6 = 40 from rfl,
      show (aggregateList c4Records).position_quality_count 0 = 2 from rfl,
      show (aggregateList c4Records).position_quality_count 1 = 2 from rfl,
      show (aggregateList c4Records).position_quality_count 2 = 2 from rfl,
      show (aggregateList c4Records).position_quality_count 3 = 2 from rfl,
      show (aggregateList c4Records).position_quality_count 4 = 2 from rfl,
      show (aggregateList c4Records).position_quality_count 5 = 1 from rfl,
      show (aggregateList c4Records).position_quality_count 6 = 1 from rfl] }

/-- C5: after a full pass over any input of `N` records, the aggregate's
count is `N` and the histogram buckets total `N` — both as the raw mapping
summed over its entire support range and as the finalized `(length, count)`
list of the Metrics. -/
theorem count_histogram_accounting (rs : List DecodedRecord) :
    (aggregateList rs).count = rs.length ∧
    (∑ l in Finset.range ((aggregateList rs).maxLen + 1),
      (aggregateList rs).length_histogram l) = rs.length ∧
    ((histList (aggregateList rs)).map Prod.snd).sum = rs.length := by
  have hinv := histInv_aggregateList rs
  have hc := count_aggregateList rs
  exact ⟨hc, by rw [hinv.2, hc], by rw [histList_snd_sum _ hinv, hc]⟩

/-- C6: a group whose sequence and quality lines differ in length aborts the
pass with a `FormatError` carrying the quality line's 1-based number
(`pre.length + 4` when the offending group follows the well-formed prefix
`pre`), and the pass produces no `Metrics`. -/
theorem mismatch_aborts_pass (pre : List (List Char)) (rs : List Record)
    (idl seq sep qual : List Char) (rest : List (List Char))
    (hpre : parseFrom 1 pre = .ok rs)
    (hid : idl.head? = some '@') (hsep : sep.head? = some '+')
    (hlen : seq.length ≠ qual.length) :
    readRecords (pre ++ idl :: seq :: sep :: qual :: rest) =
      .error (.format (pre.length + 4)) ∧
    ∀ (offset : Nat) (r : ComputeResult),
      fullPass offset (pre ++ idl :: seq :: sep :: qual :: rest) ≠
        .ok r := by
  have h1 : readRecords (pre ++ idl :: seq :: sep :: qual :: rest) =
      .error (.format (pre.length + 4)) := by
    rw [readRecords, parseFrom_append _ 1 pre rs hpre,
      parseFrom_mismatch (1 + pre.length) idl seq sep qual rest hid hsep
        hlen]
    show Except.error (ReadError.format (1 + pre.length + 3)) =
      Except.error (ReadError.format (pre.length + 4))
    have h4 : 1 + pre.length + 3 = pre.length + 4 := by omega
    rw [h4]
  refine ⟨h1, fun offset r hr => ?_⟩
  rw [fullPass, readRecords] at hr
  rw [readRecords] at h1
  rw [h1] at hr
  exact Except.noConfusion hr

/-- Witness for C6 on a concrete stream: the first group's quality line
(line 4) is one character shorter than its sequence line. -/
theorem mismatch_aborts_pass_witness :
    parseFrom 1 ([] : List (List Char)) = .ok [] ∧
    ("@x".toList).head? = some '@' ∧
    ("+".toList).head? = some '+' ∧
    ("ACG".toList).length ≠ ("II".toList).length ∧
    readRecords (([] : List (List Char)) ++
      "@x".toList :: "ACG".toList :: "+".toList :: "II".toList :: []) =
      .error (.format (([] : List (List Char)).length + 4)) ∧
    fullPass defaultOffset (([] : List (List Char)) ++
      "@x".toList :: "ACG".toList :: "+".toList :: "II".toList :: []) ≠
      .ok ComputeResult.empty :=
  ⟨rfl, rfl, rfl, by decide,
   (mismatch_aborts_pass [] [] "@x".toList "ACG".toList "+".toList
     "II".toList [] rfl rfl rfl (by decide)).1,
   (mismatch_aborts_pass [] [] "@x".toList "ACG".toList "+".toList
     "II".toList [] rfl rfl rfl (by decide)).2 defaultOffset .empty⟩

/-- C7: the empty input stream yields zero records and is not an error, from
line 1 and in fact from any starting line number. -/
theorem empty_stream_zero_records :
    readRecords [] = .ok [] ∧ ∀ ln, parseFrom ln [] = .ok [] :=
  ⟨rfl, fun _ => rfl⟩

/-- C8: when the input source is unreadable, the engine surfaces
`InputNotFoundError` unchanged to its caller, and the caller `main` (src
lines 60–62) — not the engine — produces the user-facing message and exit
status 1. -/
theorem input_not_found_surfaced (fs : FileSystem) (offset : Nat)
    (c : Command) (h : fs (commandFile c) = none) :
    engineRun fs offset (commandFile c) = .error .inputNotFound ∧
    pyMain fs offset (some c) =
      { exitCode := 1, printedHelp := false,
        filesOpened := [commandFile c],
        errMessage := some ("Error: File ".toList ++ commandFile c ++
          " not found".toList) } := by
  have he : engineRun fs offset (commandFile c) = .error .inputNotFound := by
    rw [engineRun, openInput, h]
  refine ⟨he, ?_⟩
  rw [pyMain]
  rw [he]

/-- Witness for C8 on an empty file system and the `stats` subcommand. -/
theorem input_not_found_surfaced_witness :
    (fun _ => none : FileSystem)
      (commandFile (.stats "sample.fastq".toList "text".toList)) = none ∧
    engineRun (fun _ => none) defaultOffset
      (commandFile (.stats "sample.fastq".toList "text".toList)) =
      .error .inputNotFound ∧
    pyMain (fun _ => none) defaultOffset
      (some (.stats "sample.fastq".toList "text".toList)) =
      { exitCode := 1, printedHelp := false,
        filesOpened := ["sample.fastq".toList],
        errMessage := some ("Error: File ".toList ++
          "sample.fastq".toList ++ " not found".toList) } :=
  ⟨rfl,
   (input_not_found_surfaced (fun _ => none) defaultOffset
     (.stats "sample.fastq".toList "text".toList) rfl).1,
   (input_not_found_surfaced (fun _ => none) defaultOffset
     (.stats "sample.fastq".toList "text".toList) rfl).2⟩

/-- C9: invoked with no subcommand, the program prints the help text and
terminates with exit status 1, opening no input file. -/
theorem no_subcommand_prints_help (fs : FileSystem) (offset : Nat) :
    pyMain fs offset none =
      { exitCode := 1, printedHelp := true, filesOpened := [],
        errMessage := none } := rfl

/-- C10: for every input file and every pair of `--output-prefix` values,
`handle_full_analysis` performs the same plot generation
(`generate_all_plots` is called without the prefix) and prints the same
fixed plot filenames; the plot files produced do not depend on the
prefix. -/
theorem full_analysis_ignores_outPfx
    (gen : List Char → List (List Char)) (f p₁ p₂ : List Char) :
    (handle_full_analysis gen f p₁).plotsGenerated =
      (handle_full_analysis gen f p₂).plotsGenerated ∧
    (handle_full_analysis gen f p₁).printedPlotFilenames =
      (handle_full_analysis gen f p₂).printedPlotFilenames ∧
    (handle_full_analysis gen f p₁).printedPlotFilenames =
      ["per_base_quality.png".toList, "per_base_content.png".toList,
       "sequence_length_distribution.png".toList] :=
  ⟨rfl, rfl, rfl⟩

end FastqQC
